import Mathlib

/-!
Verification of the KHC-INVITATION-AUTOMATION scripts.

The definitions below are shallow embeddings of the JavaScript sources:
timestamps are carried as opaque strings (the scripts only store and print
them) or as integer milliseconds where the code does arithmetic on
`Date.now()`; JS objects used as string-keyed maps become association
lists in insertion order; the GitHub API and the filesystem become
explicit parameters (result oracles, page lists, operation traces).
-/

/- ===== Ledger model: `InviteManager` in scripts/search_and_invite.js ===== -/

/-- One value of the `invited_users` object: the fields stored by
`trackInvite` / `importFromLog` (`invited_at` ISO string, `search_term`). -/
structure InviteEntry where
  invited_at : String
  search_term : String
deriving DecidableEq, Repr

/-- The persisted ledger object `{ invited_users, last_updated, total_invites }`.
The JS `invited_users` object (string keys, insertion order) is modelled as an
association list. -/
structure InvitedUsers where
  invited_users : List (String × InviteEntry)
  last_updated : String
  total_invites : Nat
deriving DecidableEq, Repr

/-- The default structure returned by `loadInvitedUsers` when the file is
missing or invalid (`now` stands for `new Date().toISOString()`). -/
def emptyInvitedUsers (now : String) : InvitedUsers :=
  { invited_users := [], last_updated := now, total_invites := 0 }

/-- `isUserInvited(username)`: the JS `username in this.invitedUsers.invited_users`
membership test. -/
def isUserInvited (s : InvitedUsers) (u : String) : Bool :=
  (List.lookup u s.invited_users).isSome

/-- `trackInvite(username, searchTerm)`: returns `false` and leaves the state
unchanged when the user is already present; otherwise appends the entry,
increments `total_invites`, sets `last_updated` and returns `true`.
(`now` stands for `new Date().toISOString()`; the `saveInvitedUsers` call is
modelled separately as a filesystem trace.) -/
def trackInvite (now : String) (s : InvitedUsers) (u term : String) :
    Bool × InvitedUsers :=
  if isUserInvited s u then
    (false, s)
  else
    (true,
      { invited_users := s.invited_users ++ [(u, ⟨now, term⟩)]
        last_updated := now
        total_invites := s.total_invites + 1 })

/- ===== Load path: `loadInvitedUsers` in scripts/search_and_invite.js ===== -/

/-- Outcome of `fs.readFileSync` + `JSON.parse` on the ledger file: the file
may be absent (read throws), present but not valid JSON for the expected
shape (parse throws), or parse to a ledger object. -/
inductive FileReadResult where
  | missing
  | corrupt
  | ok (s : InvitedUsers)
deriving DecidableEq

/-- `loadInvitedUsers()`: the `try { read; parse } catch { default }` dispatch.
Both the missing-file and the invalid-JSON exception land in the same `catch`,
which returns the empty default structure; the function itself never throws. -/
def loadInvitedUsers (now : String) (r : FileReadResult) : InvitedUsers :=
  match r with
  | FileReadResult.ok s => s
  | FileReadResult.missing => emptyInvitedUsers now
  | FileReadResult.corrupt => emptyInvitedUsers now

/- ===== Helper lemmas about association-list lookup ===== -/

lemma lookup_append_self (u : String) (e : InviteEntry) :
    ∀ l : List (String × InviteEntry),
      (List.lookup u (l ++ [(u, e)])).isSome = true := by
  intro l
  induction l with
  | nil => simp [List.lookup]
  | cons hd tl ih =>
      obtain ⟨k, b⟩ := hd
      by_cases hk : u == k
      · simp [List.lookup, hk]
      · simp only [List.cons_append, List.lookup]
        rw [Bool.not_eq_true] at hk
        simp [hk, ih]

lemma not_mem_keys_of_lookup_none (u : String) :
    ∀ l : List (String × InviteEntry),
      (List.lookup u l).isSome = false → u ∉ l.map Prod.fst := by
  intro l
  induction l with
  | nil => simp
  | cons hd tl ih =>
      obtain ⟨k, b⟩ := hd
      intro h
      by_cases hk : u == k
      · simp [List.lookup, hk] at h
      · rw [Bool.not_eq_true] at hk
        simp only [List.lookup, hk] at h
        have hne : u ≠ k := by
          intro he
          subst he
          simp at hk
        simp [hne, ih h]

/-- Claim C1: after `trackInvite(u, t)` on any ledger state, `isUserInvited(u)`
is `true`, and a second `trackInvite(u, t2)` returns `false` and leaves the
state — the stored entry for `u` (its `invited_at` and `search_term`) and
`total_invites` — completely unchanged. -/
theorem c1_trackInvite_idempotent (s : InvitedUsers) (u t t2 now now2 : String) :
    isUserInvited (trackInvite now s u t).2 u = true ∧
    (trackInvite now2 (trackInvite now s u t).2 u t2).1 = false ∧
    (trackInvite now2 (trackInvite now s u t).2 u t2).2 = (trackInvite now s u t).2 := by
  have h1 : isUserInvited (trackInvite now s u t).2 u = true := by
    by_cases hc : isUserInvited s u
    · simp [trackInvite, hc]
    · rw [Bool.not_eq_true] at hc
      simp only [trackInvite, hc, if_false]
      simp only [isUserInvited]
      exact lookup_append_self u ⟨now, t⟩ s.invited_users
  have h2 : trackInvite now2 (trackInvite now s u t).2 u t2 =
      (false, (trackInvite now s u t).2) := by
    generalize (trackInvite now s u t).2 = s1 at h1 ⊢
    simp [trackInvite, h1]
  exact ⟨h1, by rw [h2], by rw [h2]⟩

/-- Claim C8: loading the ledger at startup never propagates a read or parse
exception: a missing file and syntactically invalid JSON both yield the empty
default state (no entries, `total_invites` 0), and a well-formed file yields
its parsed contents, so the run continues in every case. -/
theorem c8_load_tolerates_missing_and_corrupt :
    ∀ now : String,
      loadInvitedUsers now FileReadResult.missing = emptyInvitedUsers now ∧
      loadInvitedUsers now FileReadResult.corrupt = emptyInvitedUsers now ∧
      (emptyInvitedUsers now).invited_users = [] ∧
      (emptyInvitedUsers now).total_invites = 0 ∧
      ∀ s : InvitedUsers, loadInvitedUsers now (FileReadResult.ok s) = s := by
  intro now
  exact ⟨rfl, rfl, rfl, rfl, fun s => rfl⟩

/- ===== Log import: `importFromLog` in scripts/search_and_invite.js ===== -/

/-- One line of `invitation_log.txt` as seen by `importFromLog`: either the
regex `(timestamp) - (searchTerm) - (username)` matches and yields the three
captured fields, or the line does not match (blank lines included) and is
skipped. -/
inductive ParsedLine where
  | junk
  | entry (timestamp searchTerm username : String)
deriving DecidableEq

/-- The body of the `for (const line of lines)` loop of `importFromLog`:
a matching line whose username is not yet present is inserted with the
logged timestamp and search term and `total_invites` is incremented; all
other lines leave the state unchanged. -/
def importLine (s : InvitedUsers) (l : ParsedLine) : InvitedUsers :=
  match l with
  | ParsedLine.junk => s
  | ParsedLine.entry ts term u =>
      if isUserInvited s u then s
      else
        { s with
          invited_users := s.invited_users ++ [(u, ⟨ts, term⟩)]
          total_invites := s.total_invites + 1 }

/-- `importFromLog(logPath)`: folds the loop body over the log lines, then
sets `last_updated` (the final `saveInvitedUsers` call is modelled separately
as a filesystem trace). -/
def importFromLog (now : String) (s : InvitedUsers) (lines : List ParsedLine) :
    InvitedUsers :=
  { lines.foldl importLine s with last_updated := now }

/-- The implicit consistency invariant of the ledger: `total_invites` equals
the number of stored usernames, and the stored usernames are pairwise
distinct (so it equals the number of distinct usernames). -/
def consistentLedger (s : InvitedUsers) : Prop :=
  s.total_invites = (s.invited_users.map Prod.fst).length ∧
  (s.invited_users.map Prod.fst).Nodup

instance (s : InvitedUsers) : Decidable (consistentLedger s) := by
  unfold consistentLedger
  infer_instance

lemma consistent_append_new (s : InvitedUsers) (u : String) (e : InviteEntry)
    (lu : String) (hs : consistentLedger s) (hu : isUserInvited s u = false) :
    consistentLedger
      { invited_users := s.invited_users ++ [(u, e)]
        last_updated := lu
        total_invites := s.total_invites + 1 } := by
  obtain ⟨hlen, hnd⟩ := hs
  have hmem : u ∉ s.invited_users.map Prod.fst :=
    not_mem_keys_of_lookup_none u s.invited_users hu
  constructor
  · simp [hlen]
  · simp only [List.map_append, List.map_cons, List.map_nil]
    rw [List.nodup_append]
    refine ⟨hnd, List.nodup_singleton u, ?_⟩
    intro x hx hx1
    simp only [List.mem_singleton] at hx1
    subst hx1
    exact hmem hx

lemma importLine_consistent (s : InvitedUsers) (l : ParsedLine)
    (hs : consistentLedger s) : consistentLedger (importLine s l) := by
  cases l with
  | junk => exact hs
  | entry ts term u =>
      by_cases hu : isUserInvited s u
      · simpa [importLine, hu] using hs
      · rw [Bool.not_eq_true] at hu
        simp only [importLine, hu, if_false]
        exact consistent_append_new s u ⟨ts, term⟩ s.last_updated hs hu

lemma foldl_importLine_consistent :
    ∀ (lines : List ParsedLine) (s : InvitedUsers), consistentLedger s →
      consistentLedger (lines.foldl importLine s) := by
  intro lines
  induction lines with
  | nil => intro s hs; exact hs
  | cons l rest ih =>
      intro s hs
      exact ih (importLine s l) (importLine_consistent s l hs)

lemma consistent_set_last_updated (s : InvitedUsers) (now : String)
    (hs : consistentLedger s) : consistentLedger { s with last_updated := now } := by
  obtain ⟨hlen, hnd⟩ := hs
  exact ⟨hlen, hnd⟩

/-- Claim C9: starting from a consistent state (where `total_invites` equals
the number of distinct stored usernames), every ledger operation preserves
the invariant: `trackInvite` increments `total_invites` exactly when the
username is new, each `importFromLog` line increments it exactly when the
logged username is new, and both operations preserve consistency. -/
theorem c9_ledger_invariant (s : InvitedUsers) (h : consistentLedger s) :
    (∀ now u t, consistentLedger (trackInvite now s u t).2) ∧
    (∀ now u t, (trackInvite now s u t).2.total_invites =
      s.total_invites + (if isUserInvited s u then 0 else 1)) ∧
    (∀ l, consistentLedger (importLine s l)) ∧
    (∀ ts term u, (importLine s (ParsedLine.entry ts term u)).total_invites =
      s.total_invites + (if isUserInvited s u then 0 else 1)) ∧
    (∀ now lines, consistentLedger (importFromLog now s lines)) := by
  refine ⟨?_, ?_, ?_, ?_, ?_⟩
  · intro now u t
    by_cases hu : isUserInvited s u
    · simpa [trackInvite, hu] using h
    · rw [Bool.not_eq_true] at hu
      simp only [trackInvite, hu, if_false]
      exact consistent_append_new s u ⟨now, t⟩ now h hu
  · intro now u t
    by_cases hu : isUserInvited s u <;> simp [trackInvite, hu]
  · intro l
    exact importLine_consistent s l h
  · intro ts term u
    by_cases hu : isUserInvited s u <;> simp [importLine, hu]
  · intro now lines
    exact consistent_set_last_updated _ now (foldl_importLine_consistent lines s h)

/-- Concrete check for C9: the invariant theorem applied to a one-entry
consistent ledger and a fresh username. -/
theorem c9_ledger_invariant_witness :
    consistentLedger
      ((trackInvite "t2"
        { invited_users := [("alice", ⟨"t1", "search-X"⟩)]
          last_updated := "t1"
          total_invites := 1 } "bob" "search-Y").2) :=
  (c9_ledger_invariant
    { invited_users := [("alice", ⟨"t1", "search-X"⟩)]
      last_updated := "t1"
      total_invites := 1 } (by decide)).1 "t2" "bob" "search-Y"

/- ===== inviteFollowers.mjs: log lines, stats and the dispatch filter ===== -/

/-- One raw line of `invitation_log.txt` as the `.mjs` script sees it:
`blank` records whether `line.trim()` is empty, and the three fields are the
result of `line.split(' - ')` — leading timestamp, source term, username
(missing positions are the empty string, standing for JS `undefined`). -/
structure LogRawLine where
  blank : Bool
  timestampField : String
  sourceField : String
  userField : String
deriving DecidableEq, Repr

/-- `24 * 60 * 60 * 1000`, the `oneDay` constant of `canSendMoreInvites` and
`cleanupLogFile`, in milliseconds. -/
def oneDayMs : Int := 24 * 60 * 60 * 1000

/-- `MAX_FAILED_INVITES`, the fixed failure-count circuit-breaker threshold. -/
def MAX_FAILED_INVITES : Nat := 20

/-- The `previouslyInvited` set built inside `handleSponsorInvitations`:
non-blank log lines mapped to their third ` - `-separated field
(`line.split(' - ')[2]`, the invited username). -/
def invitedFromLog (log : List LogRawLine) : List String :=
  (log.filter (fun l => !l.blank)).map LogRawLine.userField

/-- The candidate filter of `handleSponsorInvitations`:
`followers.filter(user => !members.includes(user) && !previouslyInvited.has(user))`.
The subsequent invitation loop attempts `inviteUser` exactly for the
elements of this list. -/
def newFollowers (followers members : List String) (log : List LogRawLine) :
    List String :=
  followers.filter
    (fun u => !(members.contains u) && !((invitedFromLog log).contains u))

/-- Claim C2: the dispatcher attempts an invitation exactly for the candidates
that are neither in the ledger (the usernames recorded in the invitation log)
nor in the current org member list; in particular with an empty ledger,
candidates `[alice, bob, carol]` and members `[bob]` it invites exactly
`alice` and `carol`, and `bob` is never passed to the invite API call. -/
theorem c2_dispatch_filter :
    (∀ (followers members : List String) (log : List LogRawLine) (u : String),
      u ∈ newFollowers followers members log ↔
        (u ∈ followers ∧ u ∉ members ∧ u ∉ invitedFromLog log)) ∧
    newFollowers ["alice", "bob", "carol"] ["bob"] [] = ["alice", "carol"] := by
  constructor
  · intro followers members log u
    simp [newFollowers, List.mem_filter]
  · rfl

/-- Concrete check for C2: `alice` is attempted in scenario A, by the filter
characterisation. -/
theorem c2_dispatch_filter_witness :
    "alice" ∈ newFollowers ["alice", "bob", "carol"] ["bob"] [] :=
  (c2_dispatch_filter.1 ["alice", "bob", "carol"] ["bob"] [] "alice").mpr
    ⟨by decide, by decide, by decide⟩

/- ===== inviteFollowers.mjs: cleanupLogFile (C10) ===== -/

/-- The predicate of the `filter` inside `cleanupLogFile`: a line is kept iff
it is non-blank and `now - new Date(timestamp).getTime() <= oneDay`, where
`timestamp` is the leading ` - `-separated field. `parseDate` stands for the
JS date parse; `none` models an invalid date (`NaN`, for which the JS
comparison is false). -/
def keepLogLine (parseDate : String → Option Int) (now : Int)
    (l : LogRawLine) : Bool :=
  if l.blank then false
  else
    match parseDate l.timestampField with
    | some t => decide (now - t ≤ oneDayMs)
    | none => false

/-- `cleanupLogFile()`: rewrites the log keeping exactly the lines accepted by
`keepLogLine` (the write-back `join('\n') + '\n'` only re-serialises this
list). -/
def cleanupLogLines (parseDate : String → Option Int) (now : Int)
    (lines : List LogRawLine) : List LogRawLine :=
  lines.filter (keepLogLine parseDate now)

/-- The top-level steps of `main()` in order: `cleanupLogFile()` runs first,
before the previous-search check, the interactive menu, and any
discovery/dispatch work. -/
inductive MainStep where
  | cleanupLog
  | readLastSearch
  | menuPrompt
  | discoverAndDispatch
deriving DecidableEq

/-- The order of the `main()` prelude in inviteFollowers.mjs. -/
def mainSteps : List MainStep :=
  [MainStep.cleanupLog, MainStep.readLastSearch, MainStep.menuPrompt,
   MainStep.discoverAndDispatch]

/-- Claim C10: at startup `cleanupLogFile` is the first step of `main()`,
before any discovery or invitation, and it keeps exactly the non-blank log
lines whose leading timestamp parses and is at most 24 hours old, discarding
every other line — so the duplicate-prevention record derived from the log
only covers the last 24 hours of invitations. -/
theorem c10_cleanup_keeps_recent_lines :
    (∀ (parseDate : String → Option Int) (now : Int)
        (lines : List LogRawLine) (l : LogRawLine),
      l ∈ cleanupLogLines parseDate now lines ↔
        (l ∈ lines ∧ l.blank = false ∧
          ∃ t, parseDate l.timestampField = some t ∧ now - t ≤ oneDayMs)) ∧
    mainSteps.head? = some MainStep.cleanupLog := by
  constructor
  · intro parseDate now lines l
    rw [cleanupLogLines, List.mem_filter]
    constructor
    · rintro ⟨hmem, hkeep⟩
      have hb : l.blank = false := by
        by_contra hb1
        rw [Bool.not_eq_false] at hb1
        simp [keepLogLine, hb1] at hkeep
      refine ⟨hmem, hb, ?_⟩
      cases hp : parseDate l.timestampField with
      | none => simp [keepLogLine, hb, hp] at hkeep
      | some t =>
          simp only [keepLogLine, hb, hp] at hkeep
          simp only [Bool.false_eq_true, if_false, decide_eq_true_eq] at hkeep
          exact ⟨t, rfl, hkeep⟩
    · rintro ⟨hmem, hb, t, hp, ht⟩
      refine ⟨hmem, ?_⟩
      simp [keepLogLine, hb, hp, ht]
  · rfl

/-- Concrete check for C10: a fresh non-blank line is kept, by the cleanup
characterisation. -/
theorem c10_cleanup_keeps_recent_lines_witness :
    (⟨false, "t0", "search-X", "alice"⟩ : LogRawLine) ∈
      cleanupLogLines (fun _ => some 0) 1000
        [⟨false, "t0", "search-X", "alice"⟩] :=
  (c10_cleanup_keeps_recent_lines.1 (fun _ => some 0) 1000
      [⟨false, "t0", "search-X", "alice"⟩] ⟨false, "t0", "search-X", "alice"⟩).mpr
    ⟨by decide, rfl, 0, rfl, by decide⟩

/- ===== inviteFollowers.mjs: invitation stats and the daily budget (C3) ===== -/

/-- The `invitationStats` object persisted in `invitation_stats.json`. -/
structure InvitationStats where
  totalInvites : Nat
  last24Hours : Nat
  lastInviteTime : Int
  pendingInvites : Nat
deriving DecidableEq, Repr

/-- `canSendMoreInvites()`: resets `last24Hours` to 0 when more than 24 hours
have passed since the last invite, then allows further invites iff
`last24Hours < 50`. Returns the answer together with the (possibly reset)
stats, modelling the in-place mutation. -/
def canSendMoreInvites (now : Int) (s : InvitationStats) :
    Bool × InvitationStats :=
  let s1 := if now - s.lastInviteTime > oneDayMs then
      { s with last24Hours := 0 }
    else s
  (decide (s1.last24Hours < 50), s1)

/-- The budget gate at the top of `inviteUser`:
`if (!forceInvite && !canSendMoreInvites()) return false` — with `forceInvite`
set the check short-circuits and `canSendMoreInvites` is not even called.
Returns `(refused, stats)`: `refused = true` means `inviteUser` returns
`false` with no API call. -/
def inviteBudgetGate (forceInvite : Bool) (now : Int) (s : InvitationStats) :
    Bool × InvitationStats :=
  if forceInvite then (false, s)
  else
    let r := canSendMoreInvites now s
    (!r.1, r.2)

/-- Claim C3: whenever 50 or more invites were sent within the trailing
24 hours (`last24Hours ≥ 50` and the last invite is at most 24 hours old),
an invite attempt without the override flag is refused before any API call,
while the same attempt with the override flag set is not refused by the
budget check; `last24Hours = 50` (invite #51) is the boundary instance. -/
theorem c3_daily_budget (s : InvitationStats) (now : Int)
    (h50 : 50 ≤ s.last24Hours) (hwin : now - s.lastInviteTime ≤ oneDayMs) :
    (inviteBudgetGate false now s).1 = true ∧
    (inviteBudgetGate true now s).1 = false := by
  constructor
  · have hreset : ¬ (now - s.lastInviteTime > oneDayMs) := not_lt.mpr hwin
    simp [inviteBudgetGate, canSendMoreInvites, hreset, Nat.not_lt.mpr h50]
  · rfl

/-- Concrete check for C3: stats with exactly 50 invites in the current 24h
window refuse invite #51 without the override and allow it with the
override. -/
theorem c3_daily_budget_witness :
    (inviteBudgetGate false 1000 ⟨72, 50, 0, 3⟩).1 = true ∧
    (inviteBudgetGate true 1000 ⟨72, 50, 0, 3⟩).1 = false :=
  c3_daily_budget ⟨72, 50, 0, 3⟩ 1000 (by decide) (by decide)

/- ===== inviteFollowers.mjs: invite loop and the failure circuit breaker (C4) ===== -/

/-- Outcome of one invite API attempt inside `inviteUser`: success, a
rate-limit error, an already-invited error, an unknown user, or any other
error — the branches of the `if (!res.ok)` analysis. -/
inductive ApiResult where
  | success
  | rateLimited
  | alreadyInvited
  | notFound
  | otherError
deriving DecidableEq, Repr

/-- Whether an attempt outcome is the rate-limit error branch. -/
def isRateLimited : ApiResult → Bool
  | ApiResult.rateLimited => true
  | _ => false

/-- Result of running the invitation loop of `handleSponsorInvitations`:
the candidates actually attempted (passed to `inviteUser`), the final
`failedInvitesCount`, and whether the run aborted via `process.exit(1)`. -/
structure DispatchOut where
  attempted : List String
  failedCount : Nat
  aborted : Bool
deriving DecidableEq, Repr

/-- The `for (const user of newFollowers)` loop calling `inviteUser`, with
`api` as the oracle for each attempt's outcome. A rate-limit error increments
`failedInvitesCount`; as soon as the counter reaches `MAX_FAILED_INVITES`
the process exits, attempting no further candidate. Other outcomes
(success, already-invited, unknown user, other errors) continue with the
next candidate. -/
def dispatchLoop (api : String → ApiResult) :
    List String → Nat → DispatchOut
  | [], f => ⟨[], f, false⟩
  | u :: rest, f =>
      match api u with
      | ApiResult.rateLimited =>
          if MAX_FAILED_INVITES ≤ f + 1 then ⟨[u], f + 1, true⟩
          else
            let out := dispatchLoop api rest (f + 1)
            ⟨u :: out.attempted, out.failedCount, out.aborted⟩
      | _ =>
          let out := dispatchLoop api rest f
          ⟨u :: out.attempted, out.failedCount, out.aborted⟩

/-- Number of rate-limited attempts among a list of candidates. -/
def countRL (api : String → ApiResult) (users : List String) : Nat :=
  (users.filter (fun u => isRateLimited (api u))).length

lemma countRL_cons (api : String → ApiResult) (u : String) (users : List String) :
    countRL api (u :: users) =
      (if isRateLimited (api u) then 1 else 0) + countRL api users := by
  by_cases h : isRateLimited (api u) <;>
    simp [countRL, List.filter_cons, h, Nat.add_comm]

lemma dispatchLoop_spec (api : String → ApiResult) :
    ∀ (users : List String) (f : Nat), f < MAX_FAILED_INVITES →
      (∃ rest, (dispatchLoop api users f).attempted ++ rest = users) ∧
      (dispatchLoop api users f).failedCount =
        f + countRL api (dispatchLoop api users f).attempted ∧
      (dispatchLoop api users f).failedCount ≤ MAX_FAILED_INVITES ∧
      ((dispatchLoop api users f).aborted = false →
        (dispatchLoop api users f).attempted = users) ∧
      ((dispatchLoop api users f).aborted = true →
        (dispatchLoop api users f).failedCount = MAX_FAILED_INVITES ∧
        ∃ l x, (dispatchLoop api users f).attempted = l ++ [x] ∧
          isRateLimited (api x) = true) ∧
      ((dispatchLoop api users f).attempted ≠ users →
        (dispatchLoop api users f).aborted = true) := by
  intro users
  induction users with
  | nil =>
      intro f hf
      refine ⟨⟨[], rfl⟩, by simp [dispatchLoop, countRL], ?_, ?_, ?_, ?_⟩
      · simpa [dispatchLoop] using Nat.le_of_lt hf
      · intro _; rfl
      · intro hab; simp [dispatchLoop] at hab
      · intro hne; exact absurd rfl hne
  | cons u rest ih =>
      intro f hf
      cases hres : api u with
      | rateLimited =>
          by_cases hstop : MAX_FAILED_INVITES ≤ f + 1
          · have hout : dispatchLoop api (u :: rest) f = ⟨[u], f + 1, true⟩ := by
              simp [dispatchLoop, hres, hstop]
            have hf1 : f + 1 = MAX_FAILED_INVITES :=
              Nat.le_antisymm (Nat.succ_le_of_lt hf) hstop
            rw [hout]
            have hrl : isRateLimited (api u) = true := by rw [hres]; rfl
            refine ⟨⟨rest, rfl⟩, ?_, ?_, ?_, ?_, ?_⟩
            · simp [countRL, hrl]
            · simp [hf1]
            · intro hab; simp at hab
            · intro _
              exact ⟨hf1, [], u, rfl, hrl⟩
            · intro _; rfl
          · have hf1 : f + 1 < MAX_FAILED_INVITES := Nat.lt_of_not_le hstop
            have hout : dispatchLoop api (u :: rest) f =
                ⟨u :: (dispatchLoop api rest (f + 1)).attempted,
                 (dispatchLoop api rest (f + 1)).failedCount,
                 (dispatchLoop api rest (f + 1)).aborted⟩ := by
              simp [dispatchLoop, hres, hstop]
            obtain ⟨⟨tail, htail⟩, hcount, hle, hnoab, hab, hne⟩ := ih (f + 1) hf1
            have hrl : isRateLimited (api u) = true := by rw [hres]; rfl
            rw [hout]
            refine ⟨⟨tail, by simp [htail]⟩, ?_, hle, ?_, ?_, ?_⟩
            · simp only [countRL_cons, hrl, if_true]
              rw [hcount]
              omega
            · intro h0
              rw [hnoab h0]
            · intro h1
              obtain ⟨hfc, l, x, hatt, hx⟩ := hab h1
              exact ⟨hfc, u :: l, x, by simp [hatt], hx⟩
            · intro hneq
              by_cases habort : (dispatchLoop api rest (f + 1)).aborted = true
              · exact habort
              · rw [Bool.not_eq_true] at habort
                exfalso
                exact hneq (by rw [hnoab habort])
      | success =>
          have hout : dispatchLoop api (u :: rest) f =
              ⟨u :: (dispatchLoop api rest f).attempted,
               (dispatchLoop api rest f).failedCount,
               (dispatchLoop api rest f).aborted⟩ := by
            simp [dispatchLoop, hres]
          obtain ⟨⟨tail, htail⟩, hcount, hle, hnoab, hab, hne⟩ := ih f hf
          have hrl : isRateLimited (api u) = false := by rw [hres]; rfl
          rw [hout]
          refine ⟨⟨tail, by simp [htail]⟩, ?_, hle, ?_, ?_, ?_⟩
          · simp only [countRL_cons, hrl, Bool.false_eq_true, if_false]
            rw [hcount]
            omega
          · intro h0
            rw [hnoab h0]
          · intro h1
            obtain ⟨hfc, l, x, hatt, hx⟩ := hab h1
            exact ⟨hfc, u :: l, x, by simp [hatt], hx⟩
          · intro hneq
            by_cases habort : (dispatchLoop api rest f).aborted = true
            · exact habort
            · rw [Bool.not_eq_true] at habort
              exfalso
              exact hneq (by rw [hnoab habort])
      | alreadyInvited =>
          have hout : dispatchLoop api (u :: rest) f =
              ⟨u :: (dispatchLoop api rest f).attempted,
               (dispatchLoop api rest f).failedCount,
               (dispatchLoop api rest f).aborted⟩ := by
            simp [dispatchLoop, hres]
          obtain ⟨⟨tail, htail⟩, hcount, hle, hnoab, hab, hne⟩ := ih f hf
          have hrl : isRateLimited (api u) = false := by rw [hres]; rfl
          rw [hout]
          refine ⟨⟨tail, by simp [htail]⟩, ?_, hle, ?_, ?_, ?_⟩
          · simp only [countRL_cons, hrl, Bool.false_eq_true, if_false]
            rw [hcount]
            omega
          · intro h0
            rw [hnoab h0]
          · intro h1
            obtain ⟨hfc, l, x, hatt, hx⟩ := hab h1
            exact ⟨hfc, u :: l, x, by simp [hatt], hx⟩
          · intro hneq
            by_cases habort : (dispatchLoop api rest f).aborted = true
            · exact habort
            · rw [Bool.not_eq_true] at habort
              exfalso
              exact hneq (by rw [hnoab habort])
      | notFound =>
          have hout : dispatchLoop api (u :: rest) f =
              ⟨u :: (dispatchLoop api rest f).attempted,
               (dispatchLoop api rest f).failedCount,
               (dispatchLoop api rest f).aborted⟩ := by
            simp [dispatchLoop, hres]
          obtain ⟨⟨tail, htail⟩, hcount, hle, hnoab, hab, hne⟩ := ih f hf
          have hrl : isRateLimited (api u) = false := by rw [hres]; rfl
          rw [hout]
          refine ⟨⟨tail, by simp [htail]⟩, ?_, hle, ?_, ?_, ?_⟩
          · simp only [countRL_cons, hrl, Bool.false_eq_true, if_false]
            rw [hcount]
            omega
          · intro h0
            rw [hnoab h0]
          · intro h1
            obtain ⟨hfc, l, x, hatt, hx⟩ := hab h1
            exact ⟨hfc, u :: l, x, by simp [hatt], hx⟩
          · intro hneq
            by_cases habort : (dispatchLoop api rest f).aborted = true
            · exact habort
            · rw [Bool.not_eq_true] at habort
              exfalso
              exact hneq (by rw [hnoab habort])
      | otherError =>
          have hout : dispatchLoop api (u :: rest) f =
              ⟨u :: (dispatchLoop api rest f).attempted,
               (dispatchLoop api rest f).failedCount,
               (dispatchLoop api rest f).aborted⟩ := by
            simp [dispatchLoop, hres]
          obtain ⟨⟨tail, htail⟩, hcount, hle, hnoab, hab, hne⟩ := ih f hf
          have hrl : isRateLimited (api u) = false := by rw [hres]; rfl
          rw [hout]
          refine ⟨⟨tail, by simp [htail]⟩, ?_, hle, ?_, ?_, ?_⟩
          · simp only [countRL_cons, hrl, Bool.false_eq_true, if_false]
            rw [hcount]
            omega
          · intro h0
            rw [hnoab h0]
          · intro h1
            obtain ⟨hfc, l, x, hatt, hx⟩ := hab h1
            exact ⟨hfc, u :: l, x, by simp [hatt], hx⟩
          · intro hneq
            by_cases habort : (dispatchLoop api rest f).aborted = true
            · exact habort
            · rw [Bool.not_eq_true] at habort
              exfalso
              exact hneq (by rw [hnoab habort])

/-- Claim C4: in every run of the dispatch loop (counter starting at 0), each
rate-limit error increments the failure counter (the final counter equals the
number of rate-limited attempts), the attempted candidates form a prefix of
the candidate list, the counter never exceeds 20 (`MAX_FAILED_INVITES`), the
loop only stops early by aborting, and when it aborts the counter is exactly
20 and the last attempted candidate is the 20th rate-limit failure — so no
further candidate is ever attempted after it. -/
theorem c4_circuit_breaker (api : String → ApiResult) (users : List String) :
    (∃ rest, (dispatchLoop api users 0).attempted ++ rest = users) ∧
    (dispatchLoop api users 0).failedCount =
      countRL api (dispatchLoop api users 0).attempted ∧
    (dispatchLoop api users 0).failedCount ≤ MAX_FAILED_INVITES ∧
    ((dispatchLoop api users 0).aborted = false →
      (dispatchLoop api users 0).attempted = users) ∧
    ((dispatchLoop api users 0).aborted = true →
      (dispatchLoop api users 0).failedCount = MAX_FAILED_INVITES ∧
      ∃ l x, (dispatchLoop api users 0).attempted = l ++ [x] ∧
        isRateLimited (api x) = true) ∧
    ((dispatchLoop api users 0).attempted ≠ users →
      (dispatchLoop api users 0).aborted = true) := by
  obtain ⟨hpre, hcount, hle, hnoab, hab, hne⟩ :=
    dispatchLoop_spec api users 0 (by decide)
  exact ⟨hpre, by simpa using hcount, hle, hnoab, hab, hne⟩

/-- Concrete check for C4, scenario B: a candidate list of 25 entries that all
return a rate-limit error is cut off after exactly 20 attempts, and the
attempted list is a prefix of the input (by the circuit-breaker theorem). -/
theorem c4_circuit_breaker_witness :
    (dispatchLoop (fun _ => ApiResult.rateLimited)
        (List.replicate 25 "dave") 0).attempted.length = 20 ∧
    (∃ rest, (dispatchLoop (fun _ => ApiResult.rateLimited)
        (List.replicate 25 "dave") 0).attempted ++ rest =
      List.replicate 25 "dave") :=
  ⟨by decide,
   (c4_circuit_breaker (fun _ => ApiResult.rateLimited)
     (List.replicate 25 "dave")).1⟩

/- ===== inviteFollowers.mjs: a full dispatch pass over the log (C5) ===== -/

/-- The effect of the invitation loop on the log file: a successful
`inviteUser` appends `timestamp - sourceUsername - username` to
`invitation_log.txt`; unsuccessful attempts append nothing. -/
def dispatchAndLog (api : String → ApiResult) (ts source : String)
    (news : List String) (log : List LogRawLine) : List LogRawLine :=
  news.foldl
    (fun lg u =>
      match api u with
      | ApiResult.success => lg ++ [⟨false, ts, source, u⟩]
      | _ => lg)
    log

/-- One Discoverer + Dispatcher pass: filter the discovered candidates
against the current members and the log-derived ledger, attempt each
survivor, and return the log as it stands after the pass. -/
def runOnce (api : String → ApiResult) (ts source : String)
    (cand members : List String) (log : List LogRawLine) : List LogRawLine :=
  dispatchAndLog api ts source (newFollowers cand members log) log

lemma mem_invitedFromLog_append_entry (log : List LogRawLine)
    (ts source u : String) :
    u ∈ invitedFromLog (log ++ [⟨false, ts, source, u⟩]) := by
  simp [invitedFromLog, List.filter_append]

lemma mem_invitedFromLog_mono (api : String → ApiResult) (ts source : String) :
    ∀ (news : List String) (log : List LogRawLine) (x : String),
      x ∈ invitedFromLog log →
      x ∈ invitedFromLog (dispatchAndLog api ts source news log) := by
  intro news
  induction news with
  | nil => intro log x hx; exact hx
  | cons u rest ih =>
      intro log x hx
      show x ∈ invitedFromLog (List.foldl _ _ (u :: rest))
      rw [List.foldl_cons]
      cases hres : api u with
      | success =>
          simp only [hres]
          apply ih
          simp [invitedFromLog, List.filter_append] at hx ⊢
          exact Or.inl hx
      | rateLimited => simpa [hres] using ih log x hx
      | alreadyInvited => simpa [hres] using ih log x hx
      | notFound => simpa [hres] using ih log x hx
      | otherError => simpa [hres] using ih log x hx

lemma mem_dispatchAndLog_of_success (api : String → ApiResult)
    (ts source : String) :
    ∀ (news : List String) (log : List LogRawLine) (u : String),
      u ∈ news → api u = ApiResult.success →
      u ∈ invitedFromLog (dispatchAndLog api ts source news log) := by
  intro news
  induction news with
  | nil => intro log u hu; simp at hu
  | cons v rest ih =>
      intro log u hu hsucc
      show u ∈ invitedFromLog (List.foldl _ _ (v :: rest))
      rw [List.foldl_cons]
      rcases List.mem_cons.mp hu with heq | htail
      · subst heq
        simp only [hsucc]
        exact mem_invitedFromLog_mono api ts source rest _ u
          (mem_invitedFromLog_append_entry log ts source u)
      · cases hres : api v with
        | success => simpa [hres] using ih _ u htail hsucc
        | rateLimited => simpa [hres] using ih _ u htail hsucc
        | alreadyInvited => simpa [hres] using ih _ u htail hsucc
        | notFound => simpa [hres] using ih _ u htail hsucc
        | otherError => simpa [hres] using ih _ u htail hsucc

/-- Counterexample to claim C5 as stated: the second run is not always empty.
First part: with the single candidate `alice`, no members and an empty log,
a first pass whose invite attempt fails (user not found) logs nothing, so the
second pass still selects `alice` — she is not skipped as already contacted —
and a second pass whose attempt succeeds invites her, a new user invited the
second time. Second part: even when the first pass's attempt succeeds, the
`cleanupLogFile` pass at the next startup drops the logged line once it is
older than 24 hours (here the logged timestamp parses to 0 ms and the second
run starts at 2 days), after which the filter selects `alice` again. -/
theorem c5_counterexample_second_run_reinvites :
    newFollowers ["alice"] []
      (runOnce (fun _ => ApiResult.notFound) "t0" "search-X"
        ["alice"] [] []) = ["alice"] ∧
    invitedFromLog
      (runOnce (fun _ => ApiResult.success) "t1" "search-X" ["alice"] []
        (runOnce (fun _ => ApiResult.notFound) "t0" "search-X"
          ["alice"] [] [])) = ["alice"] ∧
    newFollowers ["alice"] []
      (cleanupLogLines (fun _ => some 0) (2 * oneDayMs)
        (runOnce (fun _ => ApiResult.success) "t0" "search-X"
          ["alice"] [] [])) = ["alice"] := by
  decide

/-- Claim C5 as amended: when every invite attempt of the first pass
succeeds and the first pass's log is carried over unchanged to the second
run (no ledger reset and the second run starts inside the log's 24-hour
retention window), a second Discoverer + Dispatcher pass over the same
source (same candidates, same member list) finds no candidate left to
invite: the filter labels every remaining candidate as already contacted or
already a member, so zero new users are invited. Candidates whose first-pass
attempt failed are not logged and are re-attempted on the second run, and
log entries older than 24 hours are dropped at startup, after which users
are re-invited — the counterexample exhibits both. -/
theorem c5_second_run_invites_nobody (api : String → ApiResult)
    (ts source : String) (cand members : List String) (log : List LogRawLine)
    (h : ∀ u ∈ cand, api u = ApiResult.success) :
    newFollowers cand members (runOnce api ts source cand members log) = [] := by
  rw [newFollowers, List.filter_eq_nil_iff]
  intro u hu
  intro hkeep
  rw [Bool.and_eq_true, Bool.not_eq_true', Bool.not_eq_true'] at hkeep
  obtain ⟨hm, hl⟩ := hkeep
  have hm1 : u ∉ members := by
    intro hmem
    have hc : members.contains u = true := List.elem_iff.mpr hmem
    rw [hm] at hc
    cases hc
  have hl1 : u ∉ invitedFromLog (runOnce api ts source cand members log) := by
    intro hmem
    have hc : (invitedFromLog (runOnce api ts source cand members log)).contains u = true :=
      List.elem_iff.mpr hmem
    rw [hl] at hc
    cases hc
  by_cases hold : u ∈ invitedFromLog log
  · exact hl1 (mem_invitedFromLog_mono api ts source
      (newFollowers cand members log) log u hold)
  · have hnew : u ∈ newFollowers cand members log := by
      rw [newFollowers, List.mem_filter]
      refine ⟨hu, ?_⟩
      rw [Bool.and_eq_true, Bool.not_eq_true', Bool.not_eq_true']
      constructor
      · rw [Bool.eq_false_iff]
        intro hc
        exact hm1 (List.elem_iff.mp hc)
      · rw [Bool.eq_false_iff]
        intro hc
        exact hold (List.elem_iff.mp hc)
    exact hl1 (mem_dispatchAndLog_of_success api ts source
      (newFollowers cand members log) log u hnew (h u hu))

/-- Concrete check for C5: after one all-successful pass over
`[alice, bob, carol]` with members `[bob]` and an empty log, the second pass
has nothing left to invite. -/
theorem c5_second_run_invites_nobody_witness :
    newFollowers ["alice", "bob", "carol"] ["bob"]
      (runOnce (fun _ => ApiResult.success) "t0" "search-X"
        ["alice", "bob", "carol"] ["bob"] []) = [] :=
  c5_second_run_invites_nobody (fun _ => ApiResult.success) "t0" "search-X"
    ["alice", "bob", "carol"] ["bob"] [] (fun _ _ => rfl)

/- ===== inviteFollowers.mjs: candidate discoverers (C6) ===== -/

/-- `getFollowers(username)`: the pagination loop concatenates each page's
logins onto `allFollowers` (`allFollowers.concat(followers.map(u => u.login))`)
with no deduplication; the input is the sequence of pages the API returns. -/
def getFollowers (pages : List (List String)) : List String :=
  pages.foldl (fun acc p => acc ++ p) []

/-- `searchUsersByKeyword(keyword)`: the pagination loop pushes each page's
logins onto `users` (`users.push(...data.items.map(item => item.login))`)
with no deduplication. -/
def searchUsersByKeyword (pages : List (List String)) : List String :=
  pages.foldl (fun acc p => acc ++ p) []

/-- `allMembers.add(member.login)`: adding one login to the insertion-ordered
JS `Set` of `getOrgMembers`. -/
def addMember (acc : List String) (m : String) : List String :=
  if m ∈ acc then acc else acc ++ [m]

/-- `getOrgMembers(orgName)`: the pagination loop adds every login of every
page to a `Set`, and `Array.from` returns its elements in insertion order. -/
def getOrgMembers (pages : List (List String)) : List String :=
  pages.foldl (fun acc p => p.foldl addMember acc) []

lemma addMember_nodup (acc : List String) (m : String) (h : acc.Nodup) :
    (addMember acc m).Nodup := by
  rw [addMember]
  by_cases hm : m ∈ acc
  · simpa [hm] using h
  · simp only [hm, if_false]
    rw [List.nodup_append]
    refine ⟨h, List.nodup_singleton m, ?_⟩
    intro x hx hx1
    simp only [List.mem_singleton] at hx1
    subst hx1
    exact hm hx

lemma foldl_addMember_nodup :
    ∀ (p : List String) (acc : List String), acc.Nodup →
      (p.foldl addMember acc).Nodup := by
  intro p
  induction p with
  | nil => intro acc h; exact h
  | cons m rest ih =>
      intro acc h
      exact ih (addMember acc m) (addMember_nodup acc m h)

lemma foldl_pages_addMember_nodup :
    ∀ (pages : List (List String)) (acc : List String), acc.Nodup →
      (pages.foldl (fun acc p => p.foldl addMember acc) acc).Nodup := by
  intro pages
  induction pages with
  | nil => intro acc h; exact h
  | cons p rest ih =>
      intro acc h
      exact ih (p.foldl addMember acc) (foldl_addMember_nodup p acc h)

lemma foldl_append_eq_join :
    ∀ (pages : List (List String)) (acc : List String),
      pages.foldl (fun acc p => acc ++ p) acc = acc ++ pages.flatten := by
  intro pages
  induction pages with
  | nil => intro acc; simp
  | cons p rest ih =>
      intro acc
      rw [List.foldl_cons, ih, List.flatten_cons, List.append_assoc]

/-- Counterexample to claim C6 as stated: with the two follower pages
`[[alice], [alice]]` (the same login appearing on two pages), `getFollowers`
returns `[alice, alice]`, which contains a duplicate username. -/
theorem c6_counterexample_getFollowers_dup :
    ¬ (getFollowers [["alice"], ["alice"]]).Nodup := by
  decide

/-- Claim C6 as amended: org-member discovery (`getOrgMembers`) accumulates
logins into a `Set` and therefore returns a list with no duplicate usernames
for every page sequence, while follower discovery (`getFollowers`) and
keyword search (`searchUsersByKeyword`) return exactly the concatenation of
the API pages, so their candidate lists repeat a username whenever the pages
do. -/
theorem c6_discoverer_dedup_amended :
    (∀ pages : List (List String), (getOrgMembers pages).Nodup) ∧
    (∀ pages : List (List String), getFollowers pages = pages.flatten) ∧
    (∀ pages : List (List String), searchUsersByKeyword pages = pages.flatten) := by
  refine ⟨?_, ?_, ?_⟩
  · intro pages
    exact foldl_pages_addMember_nodup pages [] (List.nodup_nil)
  · intro pages
    rw [getFollowers, foldl_append_eq_join, List.nil_append]
  · intro pages
    rw [searchUsersByKeyword, foldl_append_eq_join, List.nil_append]

/- ===== Persistence traces: saveInvitedUsers / updateStats (C7) ===== -/

/-- A filesystem operation relevant to persistence: a whole-file write or an
atomic rename. -/
inductive FsOp where
  | write (path content : String)
  | rename (src dst : String)
deriving DecidableEq, Repr

/-- The ledger file path written by `saveInvitedUsers`
(`invited_users.json`). -/
def invitedUsersPath : String := "invited_users.json"

/-- The stats file path written by `updateStats`
(`invitation_stats.json`). -/
def statsPath : String := "invitation_stats.json"

/-- The filesystem trace of `saveInvitedUsers()`: a single
`fs.writeFile(this.invitedUsersPath, JSON.stringify(this.invitedUsers))`
directly to the final path. `stringify` stands for the JSON serialisation. -/
def saveInvitedUsersOps (stringify : InvitedUsers → String)
    (s : InvitedUsers) : List FsOp :=
  [FsOp.write invitedUsersPath (stringify s)]

/-- The filesystem trace of `updateStats()` in inviteFollowers.mjs:
a single `writeFileSync(INVITATION_STATS_FILE, JSON.stringify(invitationStats))`
directly to the final path. -/
def updateStatsOps (stringify : InvitationStats → String)
    (s : InvitationStats) : List FsOp :=
  [FsOp.write statsPath (stringify s)]

/-- Whether an operation writes directly to path `p`. -/
def writesDirectlyTo (p : String) : FsOp → Bool
  | FsOp.write q _ => q == p
  | FsOp.rename _ _ => false

/-- Whether an operation renames some file onto path `p`. -/
def isRenameTo (p : String) : FsOp → Bool
  | FsOp.rename _ d => d == p
  | FsOp.write _ _ => false

/-- The write-temp-then-rename discipline claimed by the spec for path `p`:
the trace never writes `p` directly and installs the new content with a
rename onto `p`. -/
def atomicReplaceB (p : String) (ops : List FsOp) : Bool :=
  ops.all (fun op => !writesDirectlyTo p op) && ops.any (isRenameTo p)

/-- Counterexample to claim C7 as stated: persisting the empty ledger
produces a trace that writes the ledger file directly and contains no
rename, so the write-temp-then-rename (or equivalent) discipline does not
hold even for one concrete state. -/
theorem c7_counterexample_no_atomic_rename :
    atomicReplaceB invitedUsersPath
      (saveInvitedUsersOps (fun _ => "") (emptyInvitedUsers "t0")) = false := by
  decide

/-- Claim C7 as amended: for every ledger state, `saveInvitedUsers` persists
with exactly one direct write of the serialised state onto the ledger file
path, and `updateStats` likewise writes the stats file directly — no
temporary file and no rename are involved, so a crash in the middle of the
write can leave a truncated file. -/
theorem c7_direct_write_amended :
    (∀ (stringify : InvitedUsers → String) (s : InvitedUsers),
      saveInvitedUsersOps stringify s =
        [FsOp.write invitedUsersPath (stringify s)]) ∧
    (∀ (stringify : InvitationStats → String) (s : InvitationStats),
      updateStatsOps stringify s = [FsOp.write statsPath (stringify s)]) :=
  ⟨fun _ _ => rfl, fun _ _ => rfl⟩
